import Mathlib

/-!
Shallow embedding of the Senflare-IP collector core (src/IPtest.py) and
verification of its specification claims.

Modelling conventions:
* Time is modelled as integer epoch seconds; a TTL given in hours covers
  `ttl * 3600` seconds (Python compares `datetime` differences against
  `timedelta(hours=ttl)`).
* Network effects are environments passed explicitly: a TCP connect
  environment `conn : Int → Option Nat` maps a port to `some delay`
  (milliseconds, already rounded, as the code rounds the measured time)
  when `connect_ex` returns 0, and to `none` when the connect fails or a
  socket exception is raised.  Each consultation of `conn` counts as one
  socket operation; the probe functions return that count alongside the
  result so that the no-network-activity claims are expressible.
* Python floats are modelled by rationals; `round(x, 1)` is modelled by
  round-half-to-even at one decimal, matching CPython round semantics.
* Python `int(...)` parsing is modelled for ASCII strings (whitespace
  stripping, an optional sign, decimal digits with single underscores
  between digits).
-/

namespace IPtest

/-! ## Python int parsing and IPv4 address validation -/

/-- Whitespace characters stripped by Python int parsing. -/
def isPySpace (c : Char) : Bool :=
  c = ' ' || c = '\t' || c = '\n' || c = '\r' || Char.ofNat 11 = c || Char.ofNat 12 = c

/-- Decimal digit value of an ASCII character, if it is a digit. -/
def digitVal (c : Char) : Option Nat :=
  if '0' ≤ c && c ≤ '9' then some (c.toNat - 48) else none

/-- Digit run with single underscores allowed between digits, as accepted by
Python int literals.  The Bool flag records whether the previous character
was a digit (so an underscore is currently allowed). -/
def parseDigitsU : List Char → Bool → Nat → Option Nat
  | [], prevDigit, acc => if prevDigit then some acc else none
  | c :: cs, prevDigit, acc =>
    if c = '_' then
      if prevDigit then parseDigitsU cs false acc else none
    else
      match digitVal c with
      | some d => parseDigitsU cs true (10 * acc + d)
      | none => none

/-- Strip leading and trailing whitespace. -/
def pyStrip (s : List Char) : List Char :=
  ((s.dropWhile isPySpace).reverse.dropWhile isPySpace).reverse

/-- Model of Python int(str) on ASCII strings: strip whitespace, optional
sign, then decimal digits; returns none when the string does not parse. -/
def pyIntParse (s : List Char) : Option Int :=
  match pyStrip s with
  | '+' :: rest => (parseDigitsU rest false 0).map (fun n => (n : Int))
  | '-' :: rest => (parseDigitsU rest false 0).map (fun n => -(n : Int))
  | rest => (parseDigitsU rest false 0).map (fun n => (n : Int))

/-- Split a character list at every dot, mirroring str.split of a dot. -/
def splitDot : List Char → List (List Char)
  | [] => [[]]
  | c :: cs =>
    if c = '.' then [] :: splitDot cs
    else
      match splitDot cs with
      | [] => [[c]]
      | p :: ps => (c :: p) :: ps

/-- Address validation used by both probe operations: the string must split
into exactly four dot-separated parts, each parsing as an int in [0, 255].
A part that fails to parse raises ValueError in the code, which is caught
and mapped to the same rejection. -/
def isValidIPv4 (ip : String) : Bool :=
  let parts := splitDot ip.data
  parts.length == 4 &&
    parts.all (fun p =>
      match pyIntParse p with
      | some n => decide (0 ≤ n ∧ n ≤ 255)
      | none => false)

/-! ## Probe engine -/

/-- A configured test port: either a Python int or a value of some other
type (the code guards against non-int entries with isinstance). -/
inductive PortCfg
  | intPort (n : Int)
  | nonInt
deriving DecidableEq

/-- Whether a configured port survives the isinstance and range guard. -/
def validPort : PortCfg → Bool
  | PortCfg.intPort n => decide (1 ≤ n ∧ n ≤ 65535)
  | PortCfg.nonInt => false

/-- Observable outcome of one configured port under connect environment
conn: some delay when the port is valid and the connect succeeds, none
when the port is skipped or the connect fails. -/
def portOutcome (conn : Int → Option Nat) : PortCfg → Option Nat
  | PortCfg.intPort n => if 1 ≤ n ∧ n ≤ 65535 then conn n else none
  | PortCfg.nonInt => none

/-- Port-scan loop shared by quick_filter_ip and test_ip_availability.
State: md is min_delay (none models the initial float infinity), sc is
success_count, ops counts socket connect attempts.  A successful connect
under 200 ms returns immediately; otherwise min_delay and success_count
are updated and the scan continues. -/
def quickScanAux (conn : Int → Option Nat) :
    List PortCfg → Option Nat → Nat → Nat → (Bool × Nat) × Nat
  | [], md, sc, ops =>
    (if 0 < sc then (true, md.getD 0) else (false, 0), ops)
  | p :: ps, md, sc, ops =>
    match p with
    | PortCfg.nonInt => quickScanAux conn ps md sc ops
    | PortCfg.intPort n =>
      if 1 ≤ n ∧ n ≤ 65535 then
        match conn n with
        | none => quickScanAux conn ps md sc (ops + 1)
        | some d =>
          if d < 200 then ((true, d), ops + 1)
          else quickScanAux conn ps (some (min (md.getD d) d)) (sc + 1) (ops + 1)
      else quickScanAux conn ps md sc ops

/-- Quick filter: validate the address, then scan the configured ports.
Returns ((reachable, delay), socket operation count). -/
def quick_filter_ip (ports : List PortCfg) (conn : Int → Option Nat)
    (ip : String) : (Bool × Nat) × Nat :=
  if isValidIPv4 ip then quickScanAux conn ports none 0 0
  else ((false, 0), 0)

/-- Precise probe: identical to the quick filter except for an extra guard
returning (False, 0) when the configured port list is empty. -/
def test_ip_availability (ports : List PortCfg) (conn : Int → Option Nat)
    (ip : String) : (Bool × Nat) × Nat :=
  if isValidIPv4 ip then
    if ports.isEmpty then ((false, 0), 0)
    else quickScanAux conn ports none 0 0
  else ((false, 0), 0)

/-! ## Bandwidth tester -/

/-- Observable outcome of one HTTP download round: HTTP status 200 flag,
bytes received, download duration in seconds, and time to first byte in
milliseconds. -/
structure Download where
  ok : Bool
  dataSize : Nat
  dlTime : ℚ
  latency : ℚ

/-- Round schedule of the bandwidth loop: testCount attempts, each trying
the two configured test URLs in order. -/
def bwPairs (testCount : Nat) : List (Nat × Nat) :=
  (List.range testCount).flatMap (fun a => [(a, 0), (a, 1)])

/-- Bandwidth measuring loop.  dlEnv maps (attempt, url index) to the
outcome of that round (none = the request raised and was swallowed).
Returns inl on the early exit when a round exceeds 5 Mbps, otherwise inr
with the final (best_speed, best_latency) accumulators. -/
def bwLoop (dlEnv : Nat → Nat → Option Download) :
    List (Nat × Nat) → ℚ → ℚ → (Bool × ℚ × ℚ) ⊕ (ℚ × ℚ)
  | [], bs, bl => Sum.inr (bs, bl)
  | (a, u) :: rest, bs, bl =>
    match dlEnv a u with
    | none => bwLoop dlEnv rest bs bl
    | some dl =>
      if dl.ok then
        if 0 < dl.dlTime ∧ 0 < dl.dataSize then
          let speed : ℚ := (dl.dataSize * 8 : ℚ) / (dl.dlTime * 1000000)
          let bs2 := max bs speed
          let bl2 := if bl = 0 then dl.latency else min bl dl.latency
          if 5 < speed then Sum.inl (true, bs2, bl2)
          else bwLoop dlEnv rest bs2 bl2
        else bwLoop dlEnv rest bs bl
      else bwLoop dlEnv rest bs bl

/-- Bandwidth test: validate the address, run the download rounds, and on
zero recorded throughput fall back to the precise reachability probe. -/
def test_ip_bandwidth_only (ports : List PortCfg) (conn : Int → Option Nat)
    (dlEnv : Nat → Nat → Option Download) (testCount : Nat)
    (ip : String) : Bool × ℚ × ℚ :=
  if isValidIPv4 ip then
    match bwLoop dlEnv (bwPairs testCount) 0 0 with
    | Sum.inl r => r
    | Sum.inr (bs, bl) =>
      if 0 < bs then (true, bs, bl)
      else
        let probe := (test_ip_availability ports conn ip).1
        if probe.1 then (true, 0, (probe.2 : ℚ)) else (false, 0, 0)
  else (false, 0, 0)

/-! ## Scorer and ranker -/

/-- Round-half-to-even to an integer, the rounding CPython round uses. -/
def roundHalfEven (q : ℚ) : ℤ :=
  let f : ℤ := ⌊q⌋
  let frac : ℚ := q - (f : ℚ)
  if frac < 1 / 2 then f
  else if 1 / 2 < frac then f + 1
  else if f % 2 = 0 then f else f + 1

/-- Model of Python round(x, 1). -/
def pyRound1 (q : ℚ) : ℚ := ((roundHalfEven (10 * q) : ℤ) : ℚ) / 10

/-- Composite score from the source: latency step function (0-40),
bandwidth step function (0-30), stability 0.3 factor capped at 30, total
rounded to one decimal. -/
def calculate_score (min_delay avg_delay bandwidth stability : ℚ) : ℚ :=
  let delay_score : ℚ :=
    if min_delay ≤ 50 then 40
    else if min_delay ≤ 100 then 35
    else if min_delay ≤ 200 then 30
    else if min_delay ≤ 300 then 25
    else max 0 (20 - (min_delay - 300) / 10)
  let bandwidth_score : ℚ :=
    if bandwidth ≥ 50 then 30
    else if bandwidth ≥ 20 then 25
    else if bandwidth ≥ 10 then 20
    else if bandwidth ≥ 5 then 15
    else max 0 (bandwidth * 3)
  let stability_score : ℚ := min 30 (stability * (3 / 10))
  pyRound1 (delay_score + bandwidth_score + stability_score)

/-- Latency component of the reference step-function definition, written
from the specification text. -/
def latencyComponent (minDelayMs : ℚ) : ℚ :=
  if minDelayMs ≤ 50 then 40
  else if minDelayMs ≤ 100 then 35
  else if minDelayMs ≤ 200 then 30
  else if minDelayMs ≤ 300 then 25
  else max 0 (20 - (minDelayMs - 300) / 10)

/-- Bandwidth component of the reference definition, from the spec text. -/
def bandwidthComponent (bandwidthMbps : ℚ) : ℚ :=
  if 50 ≤ bandwidthMbps then 30
  else if 20 ≤ bandwidthMbps then 25
  else if 10 ≤ bandwidthMbps then 20
  else if 5 ≤ bandwidthMbps then 15
  else max 0 (bandwidthMbps * 3)

/-- Stability component of the reference definition, from the spec text. -/
def stabilityComponent (stability : ℚ) : ℚ := min 30 (stability * (3 / 10))

/-- Reference score: sum of the three components rounded to one decimal.
Defined from the specification wording, to be compared with the source
function calculate_score. -/
def score_spec (minDelayMs avgDelayMs bandwidthMbps stability : ℚ) : ℚ :=
  pyRound1 (latencyComponent minDelayMs + bandwidthComponent bandwidthMbps
    + stabilityComponent stability)

/-- A quick-filter result tuple (ip, min_delay, avg_delay, stability), the
shape the orchestration code feeds to latency_filter_ips. -/
abbrev IPResult := String × Nat × Nat × Nat

/-- Sort order used by latency_filter_ips: ascending by the min-delay
field (the Python key x[1]). -/
def delayLE (a b : IPResult) : Bool := decide (a.2.1 ≤ b.2.1)

/-- Latency ranking filter: stable sort ascending by min delay and keep
the first max(1, floor(n * percentage / 100)) entries.  Python computes
the count with float division then int truncation, which agrees with
floor division for these magnitudes. -/
def latency_filter_ips (ip_results : List IPResult) (percentage : Nat) :
    List IPResult :=
  if ip_results.isEmpty then []
  else
    let sorted_results := ip_results.mergeSort delayLE
    let keep_count := max 1 (ip_results.length * percentage / 100)
    sorted_results.take keep_count

/-! ## Geo cache and region resolver -/

/-- A value stored in the region cache: either the current format (a dict
with region and timestamp) or a legacy value carried over from an old
Cache.json (anything without a timestamp key). -/
inductive CacheVal
  | entry (region : String) (timestamp : Int)
  | legacy (v : String)
deriving DecidableEq

/-- The cache is a Python dict: an insertion-ordered association list with
unique keys. -/
abbrev Cache := List (String × CacheVal)

/-- Dict read. -/
def dictGet : Cache → String → Option CacheVal
  | [], _ => none
  | (k0, v0) :: rest, k => if k0 = k then some v0 else dictGet rest k

/-- Dict write: overwrite in place when the key exists (keeping its
insertion position, as Python dicts do), else append at the end. -/
def dictSet : Cache → String → CacheVal → Cache
  | [], k, v => [(k, v)]
  | (k0, v0) :: rest, k, v =>
    if k0 = k then (k0, v) :: rest else (k0, v0) :: dictSet rest k v

/-- TTL check from the source: a falsy timestamp is invalid, otherwise the
entry is valid while its age is strictly below the TTL. -/
def is_cache_valid (now : Int) (timestamp : Option Int) (ttl_hours : Int) : Bool :=
  match timestamp with
  | none => false
  | some t => decide (now - t < ttl_hours * 3600)

/-- Cache read phase of get_ip_region (the first block of the function):
a timestamped entry is served only while valid, a legacy value is served
unconditionally, and everything else behaves as a miss. -/
def cache_get (now ttl : Int) (cache : Cache) (ip : String) : Option String :=
  match dictGet cache ip with
  | some (CacheVal.entry r t) =>
    if is_cache_valid now (some t) ttl then some r else none
  | some (CacheVal.legacy v) => some v
  | none => none

/-- Secondary provider attempt of get_ip_region: on a successful response
with a non-empty code, write it through; otherwise write through Unknown.
The Nat component counts provider (network) calls made so far, here 2. -/
def query_secondary (now : Int) (secondary : String → Option String)
    (cache : Cache) (ip : String) : String × Cache × Nat :=
  match secondary ip with
  | some c =>
    if c ≠ "" then (c, dictSet cache ip (CacheVal.entry c now), 2)
    else ("Unknown", dictSet cache ip (CacheVal.entry "Unknown" now), 2)
  | none => ("Unknown", dictSet cache ip (CacheVal.entry "Unknown" now), 2)

/-- Network phase of get_ip_region: primary provider first, then the
secondary.  A provider environment returns some code (possibly empty) for
a parseable 2xx response and none for any failure. -/
def query_apis (now : Int) (primary secondary : String → Option String)
    (cache : Cache) (ip : String) : String × Cache × Nat :=
  match primary ip with
  | some c =>
    if c ≠ "" then (c, dictSet cache ip (CacheVal.entry c now), 1)
    else query_secondary now secondary cache ip
  | none => query_secondary now secondary cache ip

/-- Region resolution: cache first (zero network calls on a hit), then the
provider chain.  Returns (region code, cache after the call, number of
provider calls). -/
def get_ip_region (now ttl : Int) (primary secondary : String → Option String)
    (cache : Cache) (ip : String) : String × Cache × Nat :=
  match cache_get now ttl cache ip with
  | some r => (r, cache, 0)
  | none => query_apis now primary secondary cache ip

/-- Expiry predicate of clean_expired_cache: only dict entries carrying a
timestamp can expire; they expire when their age reaches the TTL. -/
def expiredEntry (now ttl : Int) : String × CacheVal → Bool
  | (_, CacheVal.entry _ t) => decide (ttl * 3600 ≤ now - t)
  | (_, CacheVal.legacy _) => false

/-- Sort key used by the size-limit pass: the timestamp for dict entries
and the empty-string default for legacy values, which sorts before every
ISO timestamp; modelled as Option Int with none minimal. -/
def sortKey : String × CacheVal → Option Int
  | (_, CacheVal.entry _ t) => some t
  | (_, CacheVal.legacy _) => none

/-- Boolean order on cache items induced by sortKey. -/
def keyLE (a b : String × CacheVal) : Bool :=
  match sortKey a, sortKey b with
  | none, _ => true
  | some _, none => false
  | some x, some y => decide (x ≤ y)

/-- Expiry pass of clean_expired_cache: deleting the collected expired
keys from the dict amounts to filtering them out in place. -/
def cacheAfterExpiry (now ttl : Int) (cache : Cache) : Cache :=
  cache.filter (fun kv => !expiredEntry now ttl kv)

/-- Keys deleted by the size-limit pass: the first (size - 1000) keys of
the cache sorted ascending by timestamp. -/
def removedKeys (now ttl : Int) (cache : Cache) : List String :=
  (((cacheAfterExpiry now ttl cache).mergeSort keyLE).take
    ((cacheAfterExpiry now ttl cache).length - 1000)).map Prod.fst

/-- Cache cleanup: drop every expired timestamped entry, then, if more
than 1000 items remain, sort by timestamp (legacy first) and delete the
oldest items until exactly 1000 remain. -/
def clean_expired_cache (now ttl : Int) (cache : Cache) : Cache :=
  if 1000 < (cacheAfterExpiry now ttl cache).length then
    (cacheAfterExpiry now ttl cache).filter
      (fun kv => !decide (kv.1 ∈ removedKeys now ttl cache))
  else cacheAfterExpiry now ttl cache

/-! ## Claim theorems -/

/-- C1: calculate_score agrees with the reference step-function definition
(latency steps 40/35/30/25 with the max(0, 20 - (minDelay - 300)/10) tail,
bandwidth steps 30/25/20/15 with the max(0, bandwidth * 3) tail, stability
min(30, stability * 0.3), sum rounded to one decimal), and in particular
calculate_score 50 50 60 100 = 100.0 and calculate_score 400 400 0 0 = 10.0. -/
theorem calculate_score_matches_reference :
    (∀ md ad bw st : ℚ, calculate_score md ad bw st = score_spec md ad bw st)
    ∧ calculate_score 50 50 60 100 = 100
    ∧ calculate_score 400 400 0 0 = 10 := by
  refine ⟨fun md ad bw st => rfl, ?_, ?_⟩
  · norm_num [calculate_score, pyRound1, roundHalfEven]
  · norm_num [calculate_score, pyRound1, roundHalfEven]

/-- C8: for every malformed address string both probe operations return
(False, 0) and perform zero socket operations. -/
theorem malformed_address_no_socket (ports : List PortCfg)
    (conn : Int → Option Nat) (ip : String) (hbad : isValidIPv4 ip = false) :
    quick_filter_ip ports conn ip = ((false, 0), 0)
    ∧ test_ip_availability ports conn ip = ((false, 0), 0) := by
  unfold quick_filter_ip test_ip_availability
  rw [hbad]
  simp

/-- Witness for C8 at the concrete malformed address 1.2.3. -/
theorem malformed_address_no_socket_witness :
    isValidIPv4 "1.2.3" = false
    ∧ quick_filter_ip [PortCfg.intPort 443] (fun _ => some 10) "1.2.3"
        = ((false, 0), 0) :=
  ⟨by decide, (malformed_address_no_socket _ _ _ (by decide)).1⟩

/-- Accumulating minimum matching the min-delay update of the scan loop:
none models the initial float infinity. -/
def foldMin (md : Option Nat) (l : List Nat) : Option Nat :=
  l.foldl (fun acc d => some (min (acc.getD d) d)) md

theorem quickScanAux_filter (conn : Int → Option Nat) (ports : List PortCfg) :
    ∀ md sc ops, quickScanAux conn ports md sc ops
      = quickScanAux conn (ports.filter validPort) md sc ops := by
  induction ports with
  | nil => intro md sc ops; rfl
  | cons p ps ih =>
    intro md sc ops
    cases p with
    | nonInt =>
      simpa [quickScanAux, validPort, List.filter_cons] using ih md sc ops
    | intPort n =>
      by_cases hv : 1 ≤ n ∧ n ≤ 65535
      · have hb : validPort (PortCfg.intPort n) = true := by
          simp [validPort, hv]
        rw [List.filter_cons_of_pos hb]
        simp only [quickScanAux, hv, if_true]
        cases hc : conn n with
        | none => exact ih md sc (ops + 1)
        | some d =>
          by_cases hd : d < 200
          · simp [hd]
          · simp only [hd, if_false]
            exact ih _ _ _
      · have hb : validPort (PortCfg.intPort n) = false := by
          simp [validPort, hv]
        rw [List.filter_cons_of_neg (by simp [hb])]
        simp only [quickScanAux, hv, if_false]
        exact ih md sc ops

theorem quickScanAux_early (conn : Int → Option Nat) (p : PortCfg)
    (post : List PortCfg) (d : Nat) (hp : portOutcome conn p = some d)
    (hd : d < 200) :
    ∀ pre, (∀ q ∈ pre, ∀ e, portOutcome conn q = some e → 200 ≤ e) →
      ∀ md sc ops, (quickScanAux conn (pre ++ p :: post) md sc ops).1 = (true, d) := by
  intro pre
  induction pre with
  | nil =>
    intro _ md sc ops
    cases p with
    | nonInt => simp [portOutcome] at hp
    | intPort n =>
      simp only [portOutcome] at hp
      by_cases hv : 1 ≤ n ∧ n ≤ 65535
      · rw [if_pos hv] at hp
        simp [quickScanAux, hv, hp, hd]
      · rw [if_neg hv] at hp
        exact absurd hp (by simp)
  | cons q pre ih =>
    intro hpre md sc ops
    have hq := hpre q (List.mem_cons_self q pre)
    have hpre2 : ∀ r ∈ pre, ∀ e, portOutcome conn r = some e → 200 ≤ e :=
      fun r hr => hpre r (List.mem_cons_of_mem q hr)
    cases q with
    | nonInt =>
      simpa [quickScanAux] using ih hpre2 md sc ops
    | intPort n =>
      by_cases hv : 1 ≤ n ∧ n ≤ 65535
      · rw [List.cons_append]
        simp only [quickScanAux]
        rw [if_pos hv]
        cases hc : conn n with
        | none => exact ih hpre2 md sc (ops + 1)
        | some e =>
          have he : 200 ≤ e := hq e (by simp [portOutcome, hv, hc])
          show (if e < 200 then ((true, e), ops + 1)
              else quickScanAux conn (pre ++ p :: post)
                (some (min (md.getD e) e)) (sc + 1) (ops + 1)).1 = (true, d)
          rw [if_neg (show ¬e < 200 by omega)]
          exact ih hpre2 _ _ _
      · rw [List.cons_append]
        simp only [quickScanAux]
        rw [if_neg hv]
        exact ih hpre2 md sc ops

theorem quickScanAux_no_early (conn : Int → Option Nat) :
    ∀ ports : List PortCfg,
      (∀ d ∈ ports.filterMap (portOutcome conn), 200 ≤ d) →
      ∀ md sc ops, (quickScanAux conn ports md sc ops).1 =
        if 0 < sc + (ports.filterMap (portOutcome conn)).length
        then (true, (foldMin md (ports.filterMap (portOutcome conn))).getD 0)
        else (false, 0) := by
  intro ports
  induction ports with
  | nil =>
    intro _ md sc ops
    simp [quickScanAux, foldMin]
  | cons p ps ih =>
    intro h md sc ops
    cases p with
    | nonInt =>
      have hout : portOutcome conn PortCfg.nonInt = none := rfl
      simp only [List.filterMap_cons, hout] at h ⊢
      simpa [quickScanAux] using ih h md sc ops
    | intPort n =>
      by_cases hv : 1 ≤ n ∧ n ≤ 65535
      · cases hc : conn n with
        | none =>
          have hout : portOutcome conn (PortCfg.intPort n) = none := by
            simp [portOutcome, hv, hc]
          simp only [List.filterMap_cons, hout] at h ⊢
          simpa [quickScanAux, hv, hc] using ih h md sc (ops + 1)
        | some d =>
          have hout : portOutcome conn (PortCfg.intPort n) = some d := by
            simp [portOutcome, hv, hc]
          simp only [List.filterMap_cons, hout] at h ⊢
          have hd200 : 200 ≤ d := h d (List.mem_cons_self _ _)
          have hrest : ∀ e ∈ ps.filterMap (portOutcome conn), 200 ≤ e :=
            fun e he => h e (List.mem_cons_of_mem _ he)
          simp only [quickScanAux]
          rw [if_pos hv, hc]
          show (if d < 200 then ((true, d), ops + 1)
              else quickScanAux conn ps (some (min (md.getD d) d)) (sc + 1) (ops + 1)).1
            = if 0 < sc + (d :: ps.filterMap (portOutcome conn)).length
              then (true, (foldMin md (d :: ps.filterMap (portOutcome conn))).getD 0)
              else (false, 0)
          rw [if_neg (show ¬d < 200 by omega)]
          rw [ih hrest (some (min (md.getD d) d)) (sc + 1) (ops + 1)]
          have hcond1 : 0 < sc + 1 + (ps.filterMap (portOutcome conn)).length := by
            omega
          have hcond2 : 0 < sc + (d :: ps.filterMap (portOutcome conn)).length := by
            simp
          rw [if_pos hcond1, if_pos hcond2]
          rfl
      · have hout : portOutcome conn (PortCfg.intPort n) = none := by
          simp [portOutcome, hv]
        simp only [List.filterMap_cons, hout] at h ⊢
        simpa [quickScanAux, hv] using ih h md sc ops

theorem foldMin_some (as : List Nat) :
    ∀ x : Nat, foldMin (some x) as = some (as.foldl min x) := by
  induction as with
  | nil => intro x; rfl
  | cons a as ih =>
    intro x
    simpa [foldMin, List.foldl_cons] using ih (min x a)

theorem foldMin_none_eq_min? (l : List Nat) : foldMin none l = l.min? := by
  cases l with
  | nil => rfl
  | cons a as =>
    have h1 : foldMin (none : Option Nat) (a :: as) = foldMin (some a) as := by
      simp [foldMin]
    rw [h1, foldMin_some as a, List.min?]

/-- C2: on a well-formed address the quick filter (a) skips invalid port
entries without aborting the scan, (b) returns (True, delay) immediately
the first time a port connects with delay under 200 ms, and (c) when the
scan exhausts all ports, returns (True, minimum observed delay) when some
port connected and (False, 0) when none did. -/
theorem quick_filter_ip_contract (ports : List PortCfg)
    (conn : Int → Option Nat) (ip : String) (hip : isValidIPv4 ip = true) :
    quick_filter_ip ports conn ip = quick_filter_ip (ports.filter validPort) conn ip
    ∧ (∀ pre p post d, ports = pre ++ p :: post →
        portOutcome conn p = some d → d < 200 →
        (∀ q ∈ pre, ∀ e, portOutcome conn q = some e → 200 ≤ e) →
        (quick_filter_ip ports conn ip).1 = (true, d))
    ∧ ((∀ d ∈ ports.filterMap (portOutcome conn), 200 ≤ d) →
        (quick_filter_ip ports conn ip).1 =
          match (ports.filterMap (portOutcome conn)).min? with
          | some m => (true, m)
          | none => (false, 0)) := by
  unfold quick_filter_ip
  rw [hip]
  simp only [if_true]
  refine ⟨quickScanAux_filter conn ports none 0 0, ?_, ?_⟩
  · rintro pre p post d rfl hp hd hpre
    exact quickScanAux_early conn p post d hp hd pre hpre none 0 0
  · intro h
    rw [quickScanAux_no_early conn ports h none 0 0]
    rw [← foldMin_none_eq_min?]
    cases hobs : ports.filterMap (portOutcome conn) with
    | nil => simp [hobs, foldMin]
    | cons a as =>
      have h1 : foldMin (none : Option Nat) (a :: as) = foldMin (some a) as := by
        simp [foldMin]
      rw [h1, foldMin_some as a]
      simp

/-- Witness for C2: a single valid port connecting at 50 ms short-circuits. -/
theorem quick_filter_ip_contract_witness :
    isValidIPv4 "1.2.3.4" = true
    ∧ (quick_filter_ip [PortCfg.intPort 443] (fun _ => some 50) "1.2.3.4").1
        = (true, 50) :=
  ⟨by decide,
   (quick_filter_ip_contract _ _ _ (by decide)).2.1
     [] (PortCfg.intPort 443) [] 50 rfl (by decide) (by decide) (by simp)⟩

/-- C9: for every address, port configuration and connect environment, the
precise probe and the quick filter return identical results (including the
socket operation count): they implement the same algorithm and contract. -/
theorem precise_probe_equals_quick_filter (ports : List PortCfg)
    (conn : Int → Option Nat) (ip : String) :
    test_ip_availability ports conn ip = quick_filter_ip ports conn ip := by
  unfold test_ip_availability quick_filter_ip
  cases h : isValidIPv4 ip with
  | false => simp
  | true =>
    simp only [if_true]
    cases ports with
    | nil => simp [quickScanAux]
    | cons p ps => simp

theorem bwLoop_noData (dlEnv : Nat → Nat → Option Download) :
    ∀ (pairs : List (Nat × Nat)) (bs bl : ℚ),
      (∀ a u, (a, u) ∈ pairs → ∀ dl, dlEnv a u = some dl →
        ¬(dl.ok = true ∧ 0 < dl.dlTime ∧ 0 < dl.dataSize)) →
      bwLoop dlEnv pairs bs bl = Sum.inr (bs, bl) := by
  intro pairs
  induction pairs with
  | nil => intro bs bl _; rfl
  | cons pr rest ih =>
    intro bs bl h
    obtain ⟨a, u⟩ := pr
    have hrest : ∀ a2 u2, (a2, u2) ∈ rest → ∀ dl, dlEnv a2 u2 = some dl →
        ¬(dl.ok = true ∧ 0 < dl.dlTime ∧ 0 < dl.dataSize) :=
      fun a2 u2 hm => h a2 u2 (List.mem_cons_of_mem _ hm)
    simp only [bwLoop]
    split
    · exact ih bs bl hrest
    · next dl hc =>
      have hnd := h a u (List.mem_cons_self _ _) dl hc
      split
      · next hok =>
        split
        · next hsz => exact absurd ⟨hok, hsz⟩ hnd
        · exact ih bs bl hrest
      · exact ih bs bl hrest

/-- C6: when no bandwidth round records data (every transfer fails, is
rejected, or yields zero bytes), the bandwidth test falls back to the
precise reachability probe on the same address: probe success yields
(True, 0, probe delay) and probe failure yields (False, 0, 0). -/
theorem bandwidth_fallback_contract (ports : List PortCfg)
    (conn : Int → Option Nat) (dlEnv : Nat → Nat → Option Download)
    (testCount : Nat) (ip : String) (hip : isValidIPv4 ip = true)
    (hnd : ∀ a u, (a, u) ∈ bwPairs testCount → ∀ dl, dlEnv a u = some dl →
      ¬(dl.ok = true ∧ 0 < dl.dlTime ∧ 0 < dl.dataSize)) :
    (∀ d, (test_ip_availability ports conn ip).1 = (true, d) →
      test_ip_bandwidth_only ports conn dlEnv testCount ip = (true, 0, (d : ℚ)))
    ∧ ((test_ip_availability ports conn ip).1.1 = false →
      test_ip_bandwidth_only ports conn dlEnv testCount ip = (false, 0, 0)) := by
  have hloop : bwLoop dlEnv (bwPairs testCount) 0 0 = Sum.inr (0, 0) :=
    bwLoop_noData dlEnv (bwPairs testCount) 0 0 hnd
  unfold test_ip_bandwidth_only
  rw [hip]
  simp only [if_true]
  rw [hloop]
  constructor
  · intro d hprobe
    show (if (0 : ℚ) < 0 then (true, (0 : ℚ), (0 : ℚ))
        else if (test_ip_availability ports conn ip).1.1 = true
          then (true, 0, ((test_ip_availability ports conn ip).1.2 : ℚ))
          else (false, 0, 0)) = (true, 0, (d : ℚ))
    rw [if_neg (show ¬(0 : ℚ) < 0 by norm_num), hprobe]
    simp
  · intro hprobe
    show (if (0 : ℚ) < 0 then (true, (0 : ℚ), (0 : ℚ))
        else if (test_ip_availability ports conn ip).1.1 = true
          then (true, 0, ((test_ip_availability ports conn ip).1.2 : ℚ))
          else (false, 0, 0)) = (false, 0, 0)
    rw [if_neg (show ¬(0 : ℚ) < 0 by norm_num), hprobe]
    simp

/-- Witness for C6: all download rounds fail, the probe connects at 150
milliseconds, so the result is success with zero bandwidth. -/
theorem bandwidth_fallback_contract_witness :
    isValidIPv4 "1.2.3.4" = true
    ∧ (test_ip_availability [PortCfg.intPort 443] (fun _ => some 150) "1.2.3.4").1
        = (true, 150)
    ∧ test_ip_bandwidth_only [PortCfg.intPort 443] (fun _ => some 150)
        (fun _ _ => none) 3 "1.2.3.4" = (true, 0, ((150 : Nat) : ℚ)) :=
  ⟨by decide, by decide,
   (bandwidth_fallback_contract _ _ _ 3 _ (by decide)
     (fun a u _ dl hdl => absurd hdl (by simp))).1 150 (by decide)⟩

theorem query_apis_calls_pos (now : Int) (p s : String → Option String)
    (cache : Cache) (ip : String) : 1 ≤ (query_apis now p s cache ip).2.2 := by
  unfold query_apis query_secondary
  cases hp : p ip with
  | none =>
    cases hs : s ip with
    | none => simp
    | some c => by_cases h : c ≠ "" <;> simp [h]
  | some c =>
    by_cases h : c ≠ ""
    · simp [h]
    · cases hs : s ip with
      | none => simp [h]
      | some c2 => by_cases h2 : c2 ≠ "" <;> simp [h, h2]

/-- C3: the cache read of get_ip_region serves a timestamped entry only
while its age is strictly below the TTL.  A stale timestamped entry
behaves exactly as an absent one: the read yields none, the resolver
proceeds to the provider chain on the unchanged cache (the read removes
nothing), and at least one network call follows. -/
theorem stale_entry_behaves_absent (now ttl : Int)
    (primary secondary : String → Option String) (cache : Cache)
    (ip r : String) (t : Int)
    (hl : dictGet cache ip = some (CacheVal.entry r t)) :
    (ttl * 3600 ≤ now - t →
      cache_get now ttl cache ip = none
      ∧ get_ip_region now ttl primary secondary cache ip
          = query_apis now primary secondary cache ip
      ∧ 1 ≤ (get_ip_region now ttl primary secondary cache ip).2.2)
    ∧ (∀ r2, cache_get now ttl cache ip = some r2 →
        now - t < ttl * 3600 ∧ r2 = r) := by
  constructor
  · intro hage
    have h1 : cache_get now ttl cache ip = none := by
      unfold cache_get
      rw [hl]
      show (if is_cache_valid now (some t) ttl = true then some r else none) = none
      rw [if_neg (show ¬is_cache_valid now (some t) ttl = true by
        simp [is_cache_valid]; omega)]
    refine ⟨h1, ?_, ?_⟩
    · unfold get_ip_region
      rw [h1]
    · unfold get_ip_region
      rw [h1]
      exact query_apis_calls_pos now primary secondary cache ip
  · intro r2 h2
    unfold cache_get at h2
    rw [hl] at h2
    have h3 : (if is_cache_valid now (some t) ttl = true then some r else none)
        = some r2 := h2
    by_cases hv : is_cache_valid now (some t) ttl = true
    · rw [if_pos hv] at h3
      have hfresh : now - t < ttl * 3600 := by
        simpa [is_cache_valid] using hv
      exact ⟨hfresh, (Option.some.inj h3).symm⟩
    · rw [if_neg hv] at h3
      exact absurd h3 (by simp)

/-- Witness for C3: a one-hour TTL and an entry resolved 5000 seconds ago
is treated as a miss. -/
theorem stale_entry_behaves_absent_witness :
    dictGet [("1.2.3.4", CacheVal.entry "US" 0)] "1.2.3.4"
        = some (CacheVal.entry "US" 0)
    ∧ ((1 : Int) * 3600 ≤ 5000 - 0)
    ∧ cache_get 5000 1 [("1.2.3.4", CacheVal.entry "US" 0)] "1.2.3.4" = none :=
  ⟨by decide, by decide,
   ((stale_entry_behaves_absent 5000 1 (fun _ => none) (fun _ => none)
     [("1.2.3.4", CacheVal.entry "US" 0)] "1.2.3.4" "US" 0 (by decide)).1
       (by decide)).1⟩

theorem dictGet_dictSet_self (c : Cache) (k : String) (v : CacheVal) :
    dictGet (dictSet c k v) k = some v := by
  induction c with
  | nil => simp [dictSet, dictGet]
  | cons kv rest ih =>
    obtain ⟨k0, v0⟩ := kv
    by_cases h : k0 = k
    · simp [dictSet, dictGet, h]
    · simp [dictSet, dictGet, h, ih]

theorem query_apis_writes (now : Int) (p s : String → Option String)
    (cache : Cache) (ip : String) :
    (query_apis now p s cache ip).2.1
      = dictSet cache ip (CacheVal.entry (query_apis now p s cache ip).1 now) := by
  unfold query_apis query_secondary
  cases hp : p ip with
  | none =>
    cases hs : s ip with
    | none => simp
    | some c => by_cases h : c ≠ "" <;> simp [h]
  | some c =>
    by_cases h : c ≠ ""
    · simp [h]
    · cases hs : s ip with
      | none => simp [h]
      | some c2 => by_cases h2 : c2 ≠ "" <;> simp [h, h2]

theorem get_ip_region_fresh_hit (now ttl : Int) (p s : String → Option String)
    (cache : Cache) (ip r : String) (t : Int)
    (hl : dictGet cache ip = some (CacheVal.entry r t))
    (hfresh : now - t < ttl * 3600) :
    get_ip_region now ttl p s cache ip = (r, cache, 0) := by
  have hcg : cache_get now ttl cache ip = some r := by
    unfold cache_get
    rw [hl]
    show (if is_cache_valid now (some t) ttl = true then some r else none) = some r
    rw [if_pos (show is_cache_valid now (some t) ttl = true from
      decide_eq_true hfresh)]
  unfold get_ip_region
  rw [hcg]

/-- C5: if the first get_ip_region call reached the network (at least one
provider call, which always ends in a cache write, Unknown included), a
second call for the same address within TTL of that write performs zero
provider calls, returns the same region code, and leaves the cache
unchanged, whatever providers the second call would use. -/
theorem resolve_second_call_no_network (now1 now2 ttl : Int)
    (p1 s1 p2 s2 : String → Option String) (cache : Cache) (ip : String)
    (hk : 1 ≤ (get_ip_region now1 ttl p1 s1 cache ip).2.2)
    (hfresh : now2 - now1 < ttl * 3600) :
    get_ip_region now2 ttl p2 s2 (get_ip_region now1 ttl p1 s1 cache ip).2.1 ip
      = ((get_ip_region now1 ttl p1 s1 cache ip).1,
         (get_ip_region now1 ttl p1 s1 cache ip).2.1, 0) := by
  have hmiss : cache_get now1 ttl cache ip = none := by
    cases hcg : cache_get now1 ttl cache ip with
    | none => rfl
    | some r =>
      exfalso
      unfold get_ip_region at hk
      rw [hcg] at hk
      exact absurd hk (by simp)
  have hfirst : get_ip_region now1 ttl p1 s1 cache ip
      = query_apis now1 p1 s1 cache ip := by
    unfold get_ip_region
    rw [hmiss]
  rw [hfirst, query_apis_writes now1 p1 s1 cache ip]
  exact get_ip_region_fresh_hit now2 ttl p2 s2 _ ip _ now1
    (dictGet_dictSet_self cache ip _) hfresh

/-- Witness for C5: both providers fail, Unknown is cached at time 0, and
a repeat call at time 1 is served from the cache with zero calls. -/
theorem resolve_second_call_no_network_witness :
    1 ≤ (get_ip_region 0 1 (fun _ => none) (fun _ => none) [] "9.9.9.9").2.2
    ∧ ((1 : Int) - 0 < 1 * 3600)
    ∧ get_ip_region 1 1 (fun _ => none) (fun _ => none)
        (get_ip_region 0 1 (fun _ => none) (fun _ => none) [] "9.9.9.9").2.1 "9.9.9.9"
      = ((get_ip_region 0 1 (fun _ => none) (fun _ => none) [] "9.9.9.9").1,
         (get_ip_region 0 1 (fun _ => none) (fun _ => none) [] "9.9.9.9").2.1, 0) :=
  ⟨by decide, by decide,
   resolve_second_call_no_network 0 1 1 (fun _ => none) (fun _ => none)
     (fun _ => none) (fun _ => none) [] "9.9.9.9" (by decide) (by decide)⟩

/-- C10: a legacy cache value (one stored without a timestamp) is served
directly by get_ip_region with no TTL check, no network call and no cache
modification, whatever the current time and TTL are. -/
theorem legacy_cache_entry_served (now ttl : Int)
    (primary secondary : String → Option String) (cache : Cache)
    (ip v : String) (hl : dictGet cache ip = some (CacheVal.legacy v)) :
    get_ip_region now ttl primary secondary cache ip = (v, cache, 0) := by
  unfold get_ip_region cache_get
  rw [hl]

/-- Witness for C10 on a one-entry legacy cache. -/
theorem legacy_cache_entry_served_witness :
    dictGet [("5.6.7.8", CacheVal.legacy "JP")] "5.6.7.8"
        = some (CacheVal.legacy "JP")
    ∧ get_ip_region 999999 1 (fun _ => none) (fun _ => none)
        [("5.6.7.8", CacheVal.legacy "JP")] "5.6.7.8"
      = ("JP", [("5.6.7.8", CacheVal.legacy "JP")], 0) :=
  ⟨by decide, legacy_cache_entry_served _ _ _ _ _ _ _ (by decide)⟩

theorem delayLE_trans : ∀ a b c : IPResult,
    delayLE a b = true → delayLE b c = true → delayLE a c = true := by
  intro a b c hab hbc
  simp only [delayLE, decide_eq_true_eq] at *
  omega

theorem delayLE_total : ∀ a b : IPResult, delayLE a b || delayLE b a := by
  intro a b
  simp only [delayLE]
  rcases Nat.le_total a.2.1 b.2.1 with h | h <;> simp [h]

/-- C7: latency_filter_ips returns the empty list on empty input; on a
non-empty input of length n with percentage in (0, 100] it returns the
first max(1, floor(n * percentage / 100)) elements of the input sorted
ascending by the min-delay field (stated as: the kept elements together
with a remainder permute the input, are sorted, all have delay at most
every remainder delay, and have the prescribed count); in particular the
4-item example at percentage 30 keeps exactly the lowest-delay item. -/
theorem latency_filter_ips_contract :
    (∀ pct, latency_filter_ips [] pct = [])
    ∧ (∀ (results : List IPResult) (pct : Nat),
        results ≠ [] → 0 < pct → pct ≤ 100 →
        ∃ rest,
          List.Perm (latency_filter_ips results pct ++ rest) results
          ∧ (latency_filter_ips results pct).Pairwise (fun a b => delayLE a b = true)
          ∧ (∀ a ∈ latency_filter_ips results pct, ∀ b ∈ rest, a.2.1 ≤ b.2.1)
          ∧ (latency_filter_ips results pct).length
              = min (max 1 (results.length * pct / 100)) results.length)
    ∧ latency_filter_ips
        [("A", 10, 10, 0), ("B", 20, 20, 0), ("C", 30, 30, 0), ("D", 40, 40, 0)] 30
      = [("A", 10, 10, 0)] := by
  refine ⟨fun pct => rfl, ?_, ?_⟩
  case refine_2 =>
    have hs : ([("A", 10, 10, 0), ("B", 20, 20, 0), ("C", 30, 30, 0),
        ("D", 40, 40, 0)] : List IPResult).Pairwise (fun a b => delayLE a b) := by
      decide
    have hfun : latency_filter_ips
        [("A", 10, 10, 0), ("B", 20, 20, 0), ("C", 30, 30, 0), ("D", 40, 40, 0)] 30
      = (([("A", 10, 10, 0), ("B", 20, 20, 0), ("C", 30, 30, 0),
          ("D", 40, 40, 0)] : List IPResult).mergeSort delayLE).take 1 := rfl
    rw [hfun, List.mergeSort_of_sorted hs]
    rfl
  case refine_1 =>
  rintro results pct hne h0 h100
  rcases results with _ | ⟨x, l⟩
  · exact absurd rfl hne
  have hfun : latency_filter_ips (x :: l) pct
      = ((x :: l).mergeSort delayLE).take (max 1 ((x :: l).length * pct / 100)) := rfl
  set S := (x :: l).mergeSort delayLE with hSdef
  set k := max 1 ((x :: l).length * pct / 100) with hkdef
  have hsorted : S.Pairwise (fun a b => delayLE a b = true) := by
    have := List.sorted_mergeSort delayLE_trans delayLE_total (x :: l)
    simpa using this
  have hperm : List.Perm S (x :: l) := List.mergeSort_perm (x :: l) delayLE
  have hpw : (S.take k ++ S.drop k).Pairwise (fun a b => delayLE a b = true) := by
    rw [List.take_append_drop]
    exact hsorted
  refine ⟨S.drop k, ?_, ?_, ?_, ?_⟩
  · rw [hfun, List.take_append_drop]
    exact hperm
  · rw [hfun]
    exact hsorted.sublist (List.take_sublist k S)
  · intro a ha b hb
    rw [hfun] at ha
    have := (List.pairwise_append.mp hpw).2.2 a ha b hb
    simpa [delayLE] using this
  · rw [hfun, List.length_take, hperm.length_eq]

/-- Witness for C7: applying the ranking contract to the concrete 4-item
list from the specification at percentage 30. -/
theorem latency_filter_ips_contract_witness :
    ([("A", 10, 10, 0), ("B", 20, 20, 0), ("C", 30, 30, 0), ("D", 40, 40, 0)]
        : List IPResult) ≠ []
    ∧ ∃ rest,
        List.Perm
          (latency_filter_ips
            [("A", 10, 10, 0), ("B", 20, 20, 0), ("C", 30, 30, 0), ("D", 40, 40, 0)] 30
            ++ rest)
          [("A", 10, 10, 0), ("B", 20, 20, 0), ("C", 30, 30, 0), ("D", 40, 40, 0)]
        ∧ (latency_filter_ips
            [("A", 10, 10, 0), ("B", 20, 20, 0), ("C", 30, 30, 0), ("D", 40, 40, 0)] 30).Pairwise
            (fun a b => delayLE a b = true)
        ∧ (∀ a ∈ latency_filter_ips
            [("A", 10, 10, 0), ("B", 20, 20, 0), ("C", 30, 30, 0), ("D", 40, 40, 0)] 30,
            ∀ b ∈ rest, a.2.1 ≤ b.2.1)
        ∧ (latency_filter_ips
            [("A", 10, 10, 0), ("B", 20, 20, 0), ("C", 30, 30, 0), ("D", 40, 40, 0)] 30).length
            = min (max 1 (([("A", 10, 10, 0), ("B", 20, 20, 0), ("C", 30, 30, 0),
                ("D", 40, 40, 0)] : List IPResult).length * 30 / 100))
              ([("A", 10, 10, 0), ("B", 20, 20, 0), ("C", 30, 30, 0),
                ("D", 40, 40, 0)] : List IPResult).length :=
  ⟨by decide,
   latency_filter_ips_contract.2.1
     [("A", 10, 10, 0), ("B", 20, 20, 0), ("C", 30, 30, 0), ("D", 40, 40, 0)] 30
     (by decide) (by decide) (by decide)⟩

theorem keyLE_trans : ∀ a b c : String × CacheVal,
    keyLE a b = true → keyLE b c = true → keyLE a c = true := by
  intro a b c
  unfold keyLE
  cases ha : sortKey a with
  | none => intro _ _; rfl
  | some x =>
    cases hb : sortKey b with
    | none => intro h _; exact absurd h (by simp)
    | some y =>
      cases hc : sortKey c with
      | none => intro _ h; exact absurd h (by simp)
      | some z =>
        intro h1 h2
        simp only [decide_eq_true_eq] at *
        omega

theorem keyLE_total : ∀ a b : String × CacheVal, keyLE a b || keyLE b a := by
  intro a b
  unfold keyLE
  cases sortKey a with
  | none => simp
  | some x =>
    cases sortKey b with
    | none => simp
    | some y =>
      rcases Int.le_total x y with h | h <;> simp [h]

theorem sortedKeysNodup (now ttl : Int) (cache : Cache)
    (hnd : (cache.map Prod.fst).Nodup) :
    (((cacheAfterExpiry now ttl cache).mergeSort keyLE).map Prod.fst).Nodup := by
  have hsub : List.Sublist (cacheAfterExpiry now ttl cache) cache :=
    List.filter_sublist cache
  have hnd1 : ((cacheAfterExpiry now ttl cache).map Prod.fst).Nodup :=
    hnd.sublist (hsub.map Prod.fst)
  exact (((List.mergeSort_perm (cacheAfterExpiry now ttl cache) keyLE).map
    Prod.fst).nodup_iff).mpr hnd1

theorem clean_trim_perm (now ttl : Int) (cache : Cache)
    (hnd : (cache.map Prod.fst).Nodup)
    (hover : 1000 < (cacheAfterExpiry now ttl cache).length) :
    List.Perm (clean_expired_cache now ttl cache)
      (((cacheAfterExpiry now ttl cache).mergeSort keyLE).drop
        ((cacheAfterExpiry now ttl cache).length - 1000)) := by
  have hperm : List.Perm ((cacheAfterExpiry now ttl cache).mergeSort keyLE)
      (cacheAfterExpiry now ttl cache) :=
    List.mergeSort_perm (cacheAfterExpiry now ttl cache) keyLE
  have hndS := sortedKeysNodup now ttl cache hnd
  have happ : ((cacheAfterExpiry now ttl cache).mergeSort keyLE).take
        ((cacheAfterExpiry now ttl cache).length - 1000)
      ++ ((cacheAfterExpiry now ttl cache).mergeSort keyLE).drop
        ((cacheAfterExpiry now ttl cache).length - 1000)
      = (cacheAfterExpiry now ttl cache).mergeSort keyLE :=
    List.take_append_drop _ _
  have hdisj : ∀ b ∈ ((cacheAfterExpiry now ttl cache).mergeSort keyLE).drop
      ((cacheAfterExpiry now ttl cache).length - 1000),
      b.1 ∉ removedKeys now ttl cache := by
    intro b hb hmem
    have hnd2 : ((((cacheAfterExpiry now ttl cache).mergeSort keyLE).take
          ((cacheAfterExpiry now ttl cache).length - 1000)).map Prod.fst
        ++ (((cacheAfterExpiry now ttl cache).mergeSort keyLE).drop
          ((cacheAfterExpiry now ttl cache).length - 1000)).map Prod.fst).Nodup := by
      rw [← List.map_append, happ]
      exact hndS
    exact (List.nodup_append.mp hnd2).2.2 hmem (List.mem_map_of_mem Prod.fst hb)
  have hfiltS : ((cacheAfterExpiry now ttl cache).mergeSort keyLE).filter
        (fun kv => !decide (kv.1 ∈ removedKeys now ttl cache))
      = ((cacheAfterExpiry now ttl cache).mergeSort keyLE).drop
        ((cacheAfterExpiry now ttl cache).length - 1000) := by
    conv_lhs => rw [← happ]
    rw [List.filter_append]
    have h1 : (((cacheAfterExpiry now ttl cache).mergeSort keyLE).take
          ((cacheAfterExpiry now ttl cache).length - 1000)).filter
          (fun kv => !decide (kv.1 ∈ removedKeys now ttl cache)) = [] := by
      rw [List.filter_eq_nil_iff]
      intro a ha
      have hm : a.1 ∈ removedKeys now ttl cache := List.mem_map_of_mem Prod.fst ha
      simp [hm]
    have h2 : (((cacheAfterExpiry now ttl cache).mergeSort keyLE).drop
          ((cacheAfterExpiry now ttl cache).length - 1000)).filter
          (fun kv => !decide (kv.1 ∈ removedKeys now ttl cache))
        = ((cacheAfterExpiry now ttl cache).mergeSort keyLE).drop
          ((cacheAfterExpiry now ttl cache).length - 1000) := by
      apply List.filter_eq_self.mpr
      intro b hb
      simp [hdisj b hb]
    rw [h1, h2, List.nil_append]
  have hclean : clean_expired_cache now ttl cache
      = (cacheAfterExpiry now ttl cache).filter
          (fun kv => !decide (kv.1 ∈ removedKeys now ttl cache)) := by
    unfold clean_expired_cache
    rw [if_pos hover]
  rw [hclean, ← hfiltS]
  exact (hperm.filter _).symm

theorem clean_fixed (now ttl : Int) (res : Cache)
    (hres : cacheAfterExpiry now ttl res = res) (hlen : res.length ≤ 1000) :
    clean_expired_cache now ttl res = res := by
  unfold clean_expired_cache
  rw [hres, if_neg (by omega)]

/-- C4: after cleanup no timestamped entry older than the TTL remains; at
most 1000 entries remain; when the post-expiry size exceeds 1000, exactly
1000 remain and every removed item is at most (by timestamp order, legacy
first) every kept item; and a second cleanup at the same time is a no-op.
The key-uniqueness hypothesis is the Python dict invariant. -/
theorem clean_expired_cache_contract (now ttl : Int) (cache : Cache)
    (hnd : (cache.map Prod.fst).Nodup) :
    (∀ ip r t, (ip, CacheVal.entry r t) ∈ clean_expired_cache now ttl cache →
        now - t < ttl * 3600)
    ∧ (clean_expired_cache now ttl cache).length ≤ 1000
    ∧ (1000 < (cacheAfterExpiry now ttl cache).length →
        (clean_expired_cache now ttl cache).length = 1000
        ∧ ∀ a ∈ cacheAfterExpiry now ttl cache,
            a ∉ clean_expired_cache now ttl cache →
            ∀ b ∈ clean_expired_cache now ttl cache, keyLE a b = true)
    ∧ clean_expired_cache now ttl (clean_expired_cache now ttl cache)
        = clean_expired_cache now ttl cache := by
  have hmemc1 : ∀ x ∈ clean_expired_cache now ttl cache,
      x ∈ cacheAfterExpiry now ttl cache := by
    intro x hx
    unfold clean_expired_cache at hx
    split at hx
    · exact List.mem_of_mem_filter hx
    · exact hx
  have hSlen : ((cacheAfterExpiry now ttl cache).mergeSort keyLE).length
      = (cacheAfterExpiry now ttl cache).length :=
    (List.mergeSort_perm _ keyLE).length_eq
  have hlen1000 : 1000 < (cacheAfterExpiry now ttl cache).length →
      (clean_expired_cache now ttl cache).length = 1000 := by
    intro hover
    have hp := (clean_trim_perm now ttl cache hnd hover).length_eq
    rw [List.length_drop] at hp
    omega
  have hlen : (clean_expired_cache now ttl cache).length ≤ 1000 := by
    by_cases hover : 1000 < (cacheAfterExpiry now ttl cache).length
    · have := hlen1000 hover
      omega
    · have heq : clean_expired_cache now ttl cache
          = cacheAfterExpiry now ttl cache := by
        unfold clean_expired_cache
        rw [if_neg hover]
      rw [heq]
      omega
  refine ⟨?_, hlen, fun hover => ⟨hlen1000 hover, ?_⟩, ?_⟩
  · intro ip r t hmem
    have h1 := hmemc1 _ hmem
    unfold cacheAfterExpiry at h1
    have h2 := List.of_mem_filter h1
    have h3 : ¬(ttl * 3600 ≤ now - t) := by
      intro hage
      rw [show expiredEntry now ttl (ip, CacheVal.entry r t)
        = decide (ttl * 3600 ≤ now - t) from rfl] at h2
      simp [hage] at h2
    omega
  · intro a ha hnotin b hb
    have hp := clean_trim_perm now ttl cache hnd hover
    have hndS := sortedKeysNodup now ttl cache hnd
    have hclean : clean_expired_cache now ttl cache
        = (cacheAfterExpiry now ttl cache).filter
            (fun kv => !decide (kv.1 ∈ removedKeys now ttl cache)) := by
      unfold clean_expired_cache
      rw [if_pos hover]
    have hmemR : a.1 ∈ removedKeys now ttl cache := by
      by_contra hne
      exact hnotin (hclean ▸ List.mem_filter.mpr ⟨ha, by simp [hne]⟩)
    have hmm : a.1 ∈ (((cacheAfterExpiry now ttl cache).mergeSort keyLE).take
        ((cacheAfterExpiry now ttl cache).length - 1000)).map Prod.fst := hmemR
    obtain ⟨a2, ha2, heq⟩ := List.mem_map.mp hmm
    have haS : a ∈ (cacheAfterExpiry now ttl cache).mergeSort keyLE :=
      ((List.mergeSort_perm _ keyLE).mem_iff).mpr ha
    have ha2S : a2 ∈ (cacheAfterExpiry now ttl cache).mergeSort keyLE :=
      (List.take_sublist _ _).subset ha2
    have haa2 : a2 = a := List.inj_on_of_nodup_map hndS ha2S haS heq
    have hatake : a ∈ ((cacheAfterExpiry now ttl cache).mergeSort keyLE).take
        ((cacheAfterExpiry now ttl cache).length - 1000) := haa2 ▸ ha2
    have hbdrop : b ∈ ((cacheAfterExpiry now ttl cache).mergeSort keyLE).drop
        ((cacheAfterExpiry now ttl cache).length - 1000) := (hp.mem_iff).mp hb
    have hsorted : ((cacheAfterExpiry now ttl cache).mergeSort keyLE).Pairwise
        (fun x y => keyLE x y = true) := by
      simpa using List.sorted_mergeSort keyLE_trans keyLE_total
        (cacheAfterExpiry now ttl cache)
    have hpw : (((cacheAfterExpiry now ttl cache).mergeSort keyLE).take
          ((cacheAfterExpiry now ttl cache).length - 1000)
        ++ ((cacheAfterExpiry now ttl cache).mergeSort keyLE).drop
          ((cacheAfterExpiry now ttl cache).length - 1000)).Pairwise
        (fun x y => keyLE x y = true) := by
      rw [List.take_append_drop]
      exact hsorted
    exact (List.pairwise_append.mp hpw).2.2 a hatake b hbdrop
  · refine clean_fixed now ttl _ ?_ hlen
    show (clean_expired_cache now ttl cache).filter
        (fun kv => !expiredEntry now ttl kv) = clean_expired_cache now ttl cache
    apply List.filter_eq_self.mpr
    intro kv hkv
    have h1 := hmemc1 kv hkv
    unfold cacheAfterExpiry at h1
    exact (List.mem_filter.mp h1).2

/-- Witness for C4 on a two-entry cache with distinct keys. -/
theorem clean_expired_cache_contract_witness :
    (([("a", CacheVal.entry "US" 0), ("b", CacheVal.legacy "JP")] : Cache).map
        Prod.fst).Nodup
    ∧ (clean_expired_cache 5000 1
        [("a", CacheVal.entry "US" 0), ("b", CacheVal.legacy "JP")]).length ≤ 1000 :=
  ⟨by decide, (clean_expired_cache_contract 5000 1 _ (by decide)).2.1⟩

end IPtest
